import Mathlib

/-!
Verification of the HermesNet directory-declaration and file-discovery
tracker: a shallow embedding of the filesystem model
(src/hermesnet/protocol/filesystem.py), the message codec
(src/hermesnet/protocol/messages.py), the session transports
(src/hermesnet/protocol/tcp_network.py and network.py) and the server
request processor (src/hermesnet/server/processor.py), together with
theorems settling the specified properties.

Python strings are modelled as lists of characters; Python `term in s`
(substring test) and `s.split(sep)` are Python built-ins modelled by the
recursive functions `strIn` and `pySplit` below.
-/

/-- Model of a Python string: a list of characters. -/
abbrev Str := List Char

/-- Model of the Python substring test `t in s` for strings:
true iff `t` occurs contiguously inside `s`. -/
def strIn (t : Str) (s : Str) : Bool :=
  match s with
  | [] => t.isEmpty
  | _ :: rest => t.isPrefixOf s || strIn t rest

/-- Model of the Python built-in `s.split(sep)` for a one-character
separator: `pySplit sep s` returns the (always non-empty) list of
separator-free segments of `s`. -/
def pySplit (sep : Char) : Str → List Str
  | [] => [[]]
  | c :: rest =>
    if c = sep then [] :: pySplit sep rest
    else
      match pySplit sep rest with
      | h :: t => (c :: h) :: t
      | [] => [[c]]

/-- The empty string is a substring of every string. -/
theorem strIn_nil (s : Str) : strIn [] s = true := by
  induction s with
  | nil => rfl
  | cons c rest ih => simp [strIn, ih, List.isPrefixOf]

/-- A separator-free string splits into a single segment. -/
theorem pySplit_no_sep (sep : Char) (s : Str) (h : sep ∉ s) :
    pySplit sep s = [s] := by
  induction s with
  | nil => rfl
  | cons c rest ih =>
    simp only [List.mem_cons, not_or] at h
    simp [pySplit, Ne.symm h.1, ih h.2]

/-- Splitting a string of the form `u ++ sep ++ p` with separator-free
`u` and `p` yields exactly the two segments. -/
theorem pySplit_append (sep : Char) (u p : Str) (hu : sep ∉ u) (hp : sep ∉ p) :
    pySplit sep (u ++ sep :: p) = [u, p] := by
  induction u with
  | nil => simp [pySplit, pySplit_no_sep sep p hp]
  | cons c rest ih =>
    simp only [List.mem_cons, not_or] at hu
    simp [pySplit, Ne.symm hu.1, ih hu.2]

/-- Model of `filesystem.File`: name, SHA1 hex digest and size.
Equality is structural over all three fields, as generated by
`@dataclass(eq=True)`. -/
structure File where
  name : Str
  hash : Str
  size : Int
deriving DecidableEq, Repr

/-- Model of `File.copy`. -/
def File.copy (f : File) : File :=
  ⟨f.name, f.hash, f.size⟩

mutual
/-- Model of `filesystem.Directory`: a name and an ordered sequence of
files and subdirectories. -/
inductive Directory where
  | mk (name : Str) (contents : Contents)
deriving DecidableEq, Repr

/-- The ordered sequence of children of a directory (the Python list
`Directory.contents`, whose elements are files or directories). -/
inductive Contents where
  | nil
  | consFile (f : File) (rest : Contents)
  | consDir (d : Directory) (rest : Contents)
deriving DecidableEq, Repr
end

/-- The name of a directory. -/
def Directory.name : Directory → Str
  | .mk n _ => n

/-- The children of a directory. -/
def Directory.contents : Directory → Contents
  | .mk _ cs => cs

/-- Truthiness of the Python contents list: empty lists are falsy. -/
def Contents.isEmpty : Contents → Bool
  | .nil => true
  | _ => false

mutual
/-- Model of `Directory.copy`: a recursive clone of the whole tree. -/
def Directory.copy : Directory → Directory
  | .mk n cs => .mk n cs.copy

/-- Copies of every element of a contents list (the list comprehension
inside `Directory.copy`; `File.copy` is inlined as it returns an equal
file). -/
def Contents.copy : Contents → Contents
  | .nil => .nil
  | .consFile f rest => .consFile f.copy rest.copy
  | .consDir d rest => .consDir d.copy rest.copy
end

mutual
/-- Model of `Directory.search`: if the term occurs in the directory
name, a copy of the whole subtree; otherwise the filtered children, or
`none` when no child is kept. -/
def Directory.search (t : Str) : Directory → Option Directory
  | .mk n cs =>
    if strIn t n then some (Directory.mk n cs).copy
    else
      let kept := Contents.searchAll t cs
      if kept.isEmpty then none else some (.mk n kept)

/-- The loop body of `Directory.search`: keep a child file when the term
occurs in its name (`File.__contains__`), keep a child directory when its
own recursive search is not `None`, replaced by the search result. -/
def Contents.searchAll (t : Str) : Contents → Contents
  | .nil => .nil
  | .consFile f rest =>
    if strIn t f.name then .consFile f (Contents.searchAll t rest)
    else Contents.searchAll t rest
  | .consDir d rest =>
    match d.search t with
    | some s => .consDir s (Contents.searchAll t rest)
    | none => Contents.searchAll t rest
end

mutual
/-- Model of `Directory.__iter__`: pre-order traversal yielding the
directory itself, then the recursive expansion of every child. -/
def Directory.nodes : Directory → List (File ⊕ Directory)
  | .mk n cs => .inr (.mk n cs) :: cs.nodes

/-- Traversal of the children of a directory: a file is yielded as is, a
subdirectory is expanded recursively. -/
def Contents.nodes : Contents → List (File ⊕ Directory)
  | .nil => []
  | .consFile f rest => .inl f :: rest.nodes
  | .consDir d rest => d.nodes ++ rest.nodes
end

/-- The files yielded by iterating a directory (the
`isinstance(x, File)` filter used by the server processor). -/
def Directory.files (d : Directory) : List File :=
  d.nodes.filterMap (fun x => match x with | .inl f => some f | .inr _ => none)

/-- The files yielded by traversing a contents list. -/
def Contents.files (cs : Contents) : List File :=
  cs.nodes.filterMap (fun x => match x with | .inl f => some f | .inr _ => none)

theorem File.copy_eq_file (f : File) : f.copy = f := rfl

mutual
theorem Directory.copy_eq : ∀ d : Directory, d.copy = d
  | .mk n cs => by rw [Directory.copy, Contents.copy_eq_contents cs]

theorem Contents.copy_eq_contents : ∀ cs : Contents, cs.copy = cs
  | .nil => by rw [Contents.copy]
  | .consFile f rest => by rw [Contents.copy, Contents.copy_eq_contents rest]; rfl
  | .consDir d rest => by
    rw [Contents.copy, Directory.copy_eq d, Contents.copy_eq_contents rest]
end

theorem Directory.files_mk (n : Str) (cs : Contents) :
    Directory.files (.mk n cs) = cs.files := by
  simp [Directory.files, Contents.files, Directory.nodes]

theorem Contents.files_consFile (f : File) (rest : Contents) :
    Contents.files (.consFile f rest) = f :: rest.files := by
  simp [Contents.files, Contents.nodes]

theorem Contents.files_consDir (d : Directory) (rest : Contents) :
    Contents.files (.consDir d rest) = d.files ++ rest.files := by
  simp [Contents.files, Directory.files, Contents.nodes]

/-!
JSON values, as produced by `to_dict` and consumed by `from_dict`.
The Python standard-library pair `json.dumps`/`json.loads` is a bijection
between these values and their textual form (for the value shapes used by
the codec), so wire payloads are modelled at the level of decoded values.
-/

mutual
/-- A JSON value of the shapes exchanged by the protocol: strings,
integers, arrays and objects (Python dicts with string keys, in insertion
order). -/
inductive Json where
  | str (s : Str)
  | int (n : Int)
  | arr (elems : JsonList)
  | obj (fields : JsonObj)
deriving DecidableEq, Repr

/-- A list of JSON values (a JSON array). -/
inductive JsonList where
  | nil
  | cons (j : Json) (rest : JsonList)
deriving DecidableEq, Repr

/-- The fields of a JSON object, in insertion order. -/
inductive JsonObj where
  | nil
  | cons (key : Str) (val : Json) (rest : JsonObj)
deriving DecidableEq, Repr
end

/-- Lookup of a key in a JSON object (Python dict indexing; `none`
models a `KeyError`). -/
def JsonObj.lookup (k : Str) : JsonObj → Option Json
  | .nil => none
  | .cons key val rest => if key = k then some val else rest.lookup k

/-- Conversion of an ordinary list of JSON values into a JSON array. -/
def JsonList.ofList : List Json → JsonList
  | [] => .nil
  | j :: rest => .cons j (JsonList.ofList rest)

/-- Model of `File.to_dict`. -/
def File.to_dict (f : File) : Json :=
  .obj (.cons "type".data (.str "file".data)
    (.cons "name".data (.str f.name)
      (.cons "hash".data (.str f.hash)
        (.cons "size".data (.int f.size) .nil))))

mutual
/-- Model of `Directory.to_dict`. -/
def Directory.to_dict : Directory → Json
  | .mk n cs =>
    .obj (.cons "type".data (.str "directory".data)
      (.cons "name".data (.str n)
        (.cons "contents".data (.arr cs.to_dicts) .nil)))

/-- The list comprehension inside `Directory.to_dict`: the dict of every
child in order. -/
def Contents.to_dicts : Contents → JsonList
  | .nil => .nil
  | .consFile f rest => .cons f.to_dict rest.to_dicts
  | .consDir d rest => .cons d.to_dict rest.to_dicts
end

/-- Model of `filesystem.is_filedict`: the value is a dict whose `type`
key equals `"file"` and whose `name`, `hash` and `size` keys hold a
string, a string and an integer. A missing key (`KeyError`) yields
`false`; a non-dict value cannot reach the Python function through the
codec paths modelled here and is mapped to `false`. -/
def is_filedict (j : Json) : Bool :=
  match j with
  | .obj fields =>
    (match fields.lookup "type".data with
     | some (.str s) => s = "file".data
     | _ => false) &&
    (match fields.lookup "name".data with
     | some (.str _) => true
     | _ => false) &&
    (match fields.lookup "hash".data with
     | some (.str _) => true
     | _ => false) &&
    (match fields.lookup "size".data with
     | some (.int _) => true
     | _ => false)
  | _ => false


mutual
/-- Model of `filesystem.is_directorydict`: the value is a dict whose
`type` key equals `"directory"`, whose `name` key holds a string and
whose `contents` key holds a list, every element of which is itself a
directory dict or a file dict. The check of the `contents` entry is
phrased as a scan for the first field with that key (exactly what dict
lookup returns); `contents_entry_ok_lookup` below restates it through
`JsonObj.lookup`. -/
def is_directorydict (j : Json) : Bool :=
  match j with
  | .obj fields =>
    (match fields.lookup "type".data with
     | some (.str s) => s = "directory".data
     | _ => false) &&
    (match fields.lookup "name".data with
     | some (.str _) => true
     | _ => false) &&
    contents_entry_ok fields
  | _ => false

/-- Scan for the first field named `contents` and require it to hold a
list of directory dicts and file dicts (a missing field models the
`KeyError` branch, yielding `false`). -/
def contents_entry_ok : JsonObj → Bool
  | .nil => false
  | .cons key val rest =>
    if key = "contents".data then contents_value_ok val
    else contents_entry_ok rest

/-- The value found under the `contents` key must be a list whose
elements all pass the entry check. -/
def contents_value_ok : Json → Bool
  | .arr elems => entries_ok elems
  | _ => false

/-- The generator expression inside `is_directorydict`: every element of
the contents list is a directory dict or a file dict. -/
def entries_ok : JsonList → Bool
  | .nil => true
  | .cons j rest => (is_directorydict j || is_filedict j) && entries_ok rest
end

/-- The scan `contents_entry_ok` agrees with dict lookup of the
`contents` key: when the lookup finds a list, the scan checks exactly
that list. -/
theorem contents_entry_ok_lookup (fields : JsonObj) (elems : JsonList)
    (h : fields.lookup "contents".data = some (.arr elems)) :
    contents_entry_ok fields = entries_ok elems := by
  suffices hgen : ∀ n (fs : JsonObj), sizeOf fs ≤ n →
      fs.lookup "contents".data = some (.arr elems) →
      contents_entry_ok fs = entries_ok elems from
    hgen (sizeOf fields) fields le_rfl h
  intro n
  induction n with
  | zero => intro fs hf; cases fs with
    | nil => intro hl; cases hl
    | cons key val rest => simp only [JsonObj.cons.sizeOf_spec] at hf; omega
  | succ n ih =>
    intro fs hf
    cases fs with
    | nil => intro hl; cases hl
    | cons key val rest =>
      have hrest : sizeOf rest ≤ n := by
        simp only [JsonObj.cons.sizeOf_spec] at hf; omega
      clear hf
      intro hl
      simp only [JsonObj.lookup] at hl
      by_cases hk : key = "contents".data
      · rw [if_pos hk] at hl
        injection hl with hv
        subst hv
        rw [contents_entry_ok, if_pos hk, contents_value_ok]
      · rw [if_neg hk] at hl
        rw [contents_entry_ok, if_neg hk]
        exact ih rest hrest hl

/-- Model of `File.from_dict`: read the `name`, `hash` and `size` keys.
The Python method assumes the shape was already checked by
`is_filedict`; `none` models a `KeyError` or an ill-typed field. -/
def File.from_dict (j : Json) : Option File :=
  match j with
  | .obj fields =>
    match fields.lookup "name".data, fields.lookup "hash".data,
        fields.lookup "size".data with
    | some (.str n), some (.str h), some (.int s) => some ⟨n, h, s⟩
    | _, _, _ => none
  | _ => none

mutual
/-- Model of `Directory.from_dict`: read the `name` key and parse every
element of the `contents` list. The Python method assumes the shape was
already checked by `is_directorydict`; `none` models a `KeyError` or an
ill-typed field. The `contents` entry is read by scanning for the first
field with that key, restated through `JsonObj.lookup` by
`parse_contents_entry_lookup` below. -/
def Directory.from_dict (j : Json) : Option Directory :=
  match j with
  | .obj fields =>
    match fields.lookup "name".data with
    | some (.str n) => (parse_contents_entry fields).map (Directory.mk n)
    | _ => none
  | _ => none

/-- Scan for the first field named `contents` and parse its elements. -/
def parse_contents_entry : JsonObj → Option Contents
  | .nil => none
  | .cons key val rest =>
    if key = "contents".data then parse_contents_value val
    else parse_contents_entry rest

/-- The list found under the `contents` key is parsed element by
element; any other value shape fails. -/
def parse_contents_value : Json → Option Contents
  | .arr elems => parse_entries elems
  | _ => none

/-- The list comprehension inside `Directory.from_dict`, applying
`_parse_dict_to_file_or_directory` to every element: values whose `type`
key equals `"file"` parse as files, all others as directories. -/
def parse_entries : JsonList → Option Contents
  | .nil => some .nil
  | .cons j rest =>
    match j with
    | .obj fields =>
      (match fields.lookup "type".data with
       | some (.str s) =>
         if s = "file".data then
           match File.from_dict j with
           | some f => (parse_entries rest).map (Contents.consFile f)
           | none => none
         else
           match Directory.from_dict j with
           | some d => (parse_entries rest).map (Contents.consDir d)
           | none => none
       | _ =>
         match Directory.from_dict j with
         | some d => (parse_entries rest).map (Contents.consDir d)
         | none => none)
    | _ => none
end

/-- The scan `parse_contents_entry` agrees with dict lookup of the
`contents` key: when the lookup finds a list, the scan parses exactly
that list. -/
theorem parse_contents_entry_lookup (fields : JsonObj) (elems : JsonList)
    (h : fields.lookup "contents".data = some (.arr elems)) :
    parse_contents_entry fields = parse_entries elems := by
  suffices hgen : ∀ n (fs : JsonObj), sizeOf fs ≤ n →
      fs.lookup "contents".data = some (.arr elems) →
      parse_contents_entry fs = parse_entries elems from
    hgen (sizeOf fields) fields le_rfl h
  intro n
  induction n with
  | zero => intro fs hf; cases fs with
    | nil => intro hl; cases hl
    | cons key val rest => simp only [JsonObj.cons.sizeOf_spec] at hf; omega
  | succ n ih =>
    intro fs hf
    cases fs with
    | nil => intro hl; cases hl
    | cons key val rest =>
      have hrest : sizeOf rest ≤ n := by
        simp only [JsonObj.cons.sizeOf_spec] at hf; omega
      clear hf
      intro hl
      simp only [JsonObj.lookup] at hl
      by_cases hk : key = "contents".data
      · rw [if_pos hk] at hl
        injection hl with hv
        subst hv
        rw [parse_contents_entry, if_pos hk, parse_contents_value]
      · rw [if_neg hk] at hl
        rw [parse_contents_entry, if_neg hk]
        exact ih rest hrest hl

theorem is_filedict_to_dict (f : File) : is_filedict f.to_dict = true := by
  simp [File.to_dict, is_filedict, JsonObj.lookup]

theorem File.from_dict_to_dict_file (f : File) : File.from_dict f.to_dict = some f := by
  simp [File.to_dict, File.from_dict, JsonObj.lookup]

mutual
theorem is_directorydict_to_dict :
    ∀ d : Directory, is_directorydict d.to_dict = true
  | .mk n cs => by
    rw [Directory.to_dict, is_directorydict]
    simp [JsonObj.lookup, contents_entry_ok, contents_value_ok, entries_ok_to_dicts cs]

theorem entries_ok_to_dicts : ∀ cs : Contents, entries_ok cs.to_dicts = true
  | .nil => by rw [Contents.to_dicts, entries_ok]
  | .consFile f rest => by
    rw [Contents.to_dicts, entries_ok]
    simp [is_filedict_to_dict f, entries_ok_to_dicts rest]
  | .consDir d rest => by
    rw [Contents.to_dicts, entries_ok]
    simp [is_directorydict_to_dict d, entries_ok_to_dicts rest]
end

mutual
theorem Directory.from_dict_to_dict :
    ∀ d : Directory, Directory.from_dict d.to_dict = some d
  | .mk n cs => by
    rw [Directory.to_dict, Directory.from_dict]
    simp [JsonObj.lookup, parse_contents_entry, parse_contents_value, parse_entries_to_dicts cs]

theorem parse_entries_to_dicts :
    ∀ cs : Contents, parse_entries cs.to_dicts = some cs
  | .nil => by rw [Contents.to_dicts, parse_entries]
  | .consFile f rest => by
    rw [Contents.to_dicts]
    simp only [File.to_dict]
    rw [parse_entries]
    simp [JsonObj.lookup, File.from_dict, parse_entries_to_dicts rest]
  | .consDir (.mk dn dcs) rest => by
    rw [Contents.to_dicts, Directory.to_dict, parse_entries]
    have hne : ¬("directory".data = "file".data) := by decide
    simp [JsonObj.lookup, hne, Directory.from_dict, parse_contents_entry,
      parse_contents_value, parse_entries_to_dicts dcs, parse_entries_to_dicts rest]
end

/-!
Characterization of `Directory.search`, for the search-related
properties: the name-match short circuit, the filter behaviour described
by the specification, and soundness and completeness of the file filter.
-/

/-- The children of a contents sequence as an ordinary list. -/
def Contents.toList : Contents → List (File ⊕ Directory)
  | .nil => []
  | .consFile f rest => .inl f :: rest.toList
  | .consDir d rest => .inr d :: rest.toList

/-- A contents sequence built from an ordinary list of children. -/
def Contents.ofList : List (File ⊕ Directory) → Contents
  | [] => .nil
  | .inl f :: rest => .consFile f (Contents.ofList rest)
  | .inr d :: rest => .consDir d (Contents.ofList rest)

/-- Modelled from the spec: the children kept by a search, phrased as the
specification describes them — keep a child file iff the term is a
substring of its name, keep a child directory iff its own recursive
search is non-none, using the filtered result. -/
def specKeptChildren (t : Str) (children : List (File ⊕ Directory)) :
    List (File ⊕ Directory) :=
  children.filterMap (fun c =>
    match c with
    | .inl f => if strIn t f.name then some (.inl f) else none
    | .inr sub => (sub.search t).map .inr)

theorem Contents.ofList_toList : ∀ cs : Contents, Contents.ofList cs.toList = cs
  | .nil => rfl
  | .consFile f rest => by
    rw [Contents.toList, Contents.ofList, Contents.ofList_toList rest]
  | .consDir d rest => by
    rw [Contents.toList, Contents.ofList, Contents.ofList_toList rest]

theorem Contents.isEmpty_ofList (l : List (File ⊕ Directory)) :
    (Contents.ofList l).isEmpty = l.isEmpty := by
  match l with
  | [] => rfl
  | .inl f :: rest => rfl
  | .inr d :: rest => rfl

/-- The search loop keeps exactly the children the specification
describes. -/
theorem searchAll_eq_specKept (t : Str) : ∀ cs : Contents,
    Contents.searchAll t cs = Contents.ofList (specKeptChildren t cs.toList)
  | .nil => rfl
  | .consFile f rest => by
    have ih := searchAll_eq_specKept t rest
    by_cases h : strIn t f.name <;>
      simp [Contents.searchAll, Contents.toList, specKeptChildren,
        List.filterMap_cons, h, ih, Contents.ofList]
  | .consDir d rest => by
    have ih := searchAll_eq_specKept t rest
    cases hd : d.search t with
    | some s =>
      simp [Contents.searchAll, Contents.toList, specKeptChildren,
        List.filterMap_cons, hd, ih, Contents.ofList]
    | none =>
      simp [Contents.searchAll, Contents.toList, specKeptChildren,
        List.filterMap_cons, hd, ih, Contents.ofList]

/-- A directory whose name contains the term searches to itself (the
short-circuit branch returns a deep copy, and a copy is equal to the
original). -/
theorem search_name_match (t : Str) (d : Directory)
    (h : strIn t d.name = true) : d.search t = some d := by
  match d with
  | .mk n cs =>
    rw [Directory.search]
    rw [Directory.name] at h
    rw [if_pos h, Directory.copy_eq]

theorem Contents.isEmpty_iff_nil (cs : Contents) :
    cs.isEmpty = true ↔ cs = .nil := by
  cases cs <;> simp [Contents.isEmpty]

theorem Directory.self_mem_nodes (d : Directory) : Sum.inr d ∈ d.nodes := by
  match d with
  | .mk n cs => rw [Directory.nodes]; exact List.mem_cons_self _ _

theorem Directory.nodes_subset (n : Str) (cs : Contents) (x : File ⊕ Directory)
    (h : x ∈ cs.nodes) : x ∈ (Directory.mk n cs).nodes := by
  rw [Directory.nodes]
  exact List.mem_cons_of_mem _ h

theorem Contents.nodes_consFile_subset (f : File) (rest : Contents)
    (x : File ⊕ Directory) (h : x ∈ rest.nodes) :
    x ∈ (Contents.consFile f rest).nodes := by
  rw [Contents.nodes]
  exact List.mem_cons_of_mem _ h

theorem Contents.nodes_consDir_left (d : Directory) (rest : Contents)
    (x : File ⊕ Directory) (h : x ∈ d.nodes) :
    x ∈ (Contents.consDir d rest).nodes := by
  rw [Contents.nodes]
  exact List.mem_append_left _ h

theorem Contents.nodes_consDir_right (d : Directory) (rest : Contents)
    (x : File ⊕ Directory) (h : x ∈ rest.nodes) :
    x ∈ (Contents.consDir d rest).nodes := by
  rw [Contents.nodes]
  exact List.mem_append_right _ h

theorem File.mem_files_of_mem_nodes (f : File) (d : Directory)
    (h : Sum.inl f ∈ d.nodes) : f ∈ d.files := by
  rw [Directory.files]
  exact List.mem_filterMap.2 ⟨Sum.inl f, h, rfl⟩

mutual
/-- Soundness of the search filter, with the short-circuit exception:
every file in a search result either contains the term in its name, or
sits below a directory node of the result whose own name contains the
term (that subtree having been returned unfiltered). -/
theorem search_sound (t : Str) : ∀ d r : Directory, d.search t = some r →
    ∀ f ∈ r.files, strIn t f.name = true ∨
      ∃ sub : Directory, Sum.inr sub ∈ r.nodes ∧ strIn t sub.name = true ∧
        f ∈ sub.files
  | .mk n cs, r => by
    rw [Directory.search]
    by_cases h : strIn t n
    · rw [if_pos h, Directory.copy_eq]
      intro hr f hf
      cases hr
      exact Or.inr ⟨.mk n cs, Directory.self_mem_nodes _, h, hf⟩
    · rw [if_neg h]
      by_cases hk : (Contents.searchAll t cs).isEmpty
      · rw [if_pos hk]; intro hr; cases hr
      · rw [if_neg hk]
        intro hr f hf
        cases hr
        rw [Directory.files_mk] at hf
        rcases searchAll_sound t cs f hf with hin | ⟨sub, hsub, hname, hmem⟩
        · exact Or.inl hin
        · exact Or.inr ⟨sub, Directory.nodes_subset _ _ _ hsub, hname, hmem⟩

/-- Soundness of the search loop over the children of a directory. -/
theorem searchAll_sound (t : Str) : ∀ cs : Contents,
    ∀ f ∈ (Contents.searchAll t cs).files, strIn t f.name = true ∨
      ∃ sub : Directory, Sum.inr sub ∈ (Contents.searchAll t cs).nodes ∧
        strIn t sub.name = true ∧ f ∈ sub.files
  | .nil => by intro f hf; rw [Contents.searchAll] at hf; cases hf
  | .consFile g rest => by
    intro f hf
    rw [Contents.searchAll] at hf ⊢
    by_cases h : strIn t g.name
    · rw [if_pos h] at hf ⊢
      rw [Contents.files_consFile] at hf
      rcases List.mem_cons.1 hf with rfl | hf
      · exact Or.inl h
      · rcases searchAll_sound t rest f hf with hin | ⟨sub, hsub, hname, hmem⟩
        · exact Or.inl hin
        · exact Or.inr ⟨sub, Contents.nodes_consFile_subset _ _ _ hsub, hname, hmem⟩
    · rw [if_neg h] at hf ⊢
      exact searchAll_sound t rest f hf
  | .consDir d rest => by
    intro f hf
    rw [Contents.searchAll] at hf ⊢
    cases hd : d.search t with
    | some s =>
      rw [hd] at hf
      replace hf : f ∈ (Contents.consDir s (Contents.searchAll t rest)).files := hf
      rw [Contents.files_consDir] at hf
      show strIn t f.name = true ∨
        ∃ sub : Directory,
          Sum.inr sub ∈ (Contents.consDir s (Contents.searchAll t rest)).nodes ∧
            strIn t sub.name = true ∧ f ∈ sub.files
      rcases List.mem_append.1 hf with hf | hf
      · rcases search_sound t d s hd f hf with hin | ⟨sub, hsub, hname, hmem⟩
        · exact Or.inl hin
        · exact Or.inr ⟨sub, Contents.nodes_consDir_left _ _ _ hsub, hname, hmem⟩
      · rcases searchAll_sound t rest f hf with hin | ⟨sub, hsub, hname, hmem⟩
        · exact Or.inl hin
        · exact Or.inr ⟨sub, Contents.nodes_consDir_right _ _ _ hsub, hname, hmem⟩
    | none =>
      rw [hd] at hf
      replace hf : f ∈ (Contents.searchAll t rest).files := hf
      exact searchAll_sound t rest f hf
end

mutual
/-- Completeness of the search filter: every file of the tree whose name
contains the term appears in the search result. -/
theorem search_complete (t : Str) : ∀ d : Directory, ∀ f ∈ d.files,
    strIn t f.name = true → ∃ r : Directory, d.search t = some r ∧ f ∈ r.files
  | .mk n cs => by
    intro f hf ht
    rw [Directory.search]
    by_cases h : strIn t n
    · rw [if_pos h, Directory.copy_eq]
      exact ⟨.mk n cs, rfl, hf⟩
    · rw [if_neg h]
      rw [Directory.files_mk] at hf
      have hmem := searchAll_complete t cs f hf ht
      have hne : (Contents.searchAll t cs).isEmpty ≠ true := by
        intro he
        rw [(Contents.isEmpty_iff_nil _).1 he] at hmem
        rw [Contents.files] at hmem
        cases hmem
      rw [if_neg hne]
      refine ⟨.mk n (Contents.searchAll t cs), rfl, ?_⟩
      rw [Directory.files_mk]
      exact hmem

/-- Completeness of the search loop over the children of a directory. -/
theorem searchAll_complete (t : Str) : ∀ cs : Contents, ∀ f ∈ cs.files,
    strIn t f.name = true → f ∈ (Contents.searchAll t cs).files
  | .nil => by intro f hf; rw [Contents.files] at hf; cases hf
  | .consFile g rest => by
    intro f hf ht
    rw [Contents.files_consFile] at hf
    rw [Contents.searchAll]
    rcases List.mem_cons.1 hf with rfl | hf
    · rw [if_pos ht, Contents.files_consFile]
      exact List.mem_cons_self _ _
    · have hmem := searchAll_complete t rest f hf ht
      by_cases h : strIn t g.name
      · rw [if_pos h, Contents.files_consFile]
        exact List.mem_cons_of_mem _ hmem
      · rw [if_neg h]
        exact hmem
  | .consDir d rest => by
    intro f hf ht
    rw [Contents.files_consDir] at hf
    rw [Contents.searchAll]
    rcases List.mem_append.1 hf with hf | hf
    · rcases search_complete t d f hf ht with ⟨r, hr, hmem⟩
      rw [hr, Contents.files_consDir]
      exact List.mem_append_left _ hmem
    · have hmem := searchAll_complete t rest f hf ht
      cases hd : d.search t with
      | some s =>
        show f ∈ (Contents.consDir s (Contents.searchAll t rest)).files
        rw [Contents.files_consDir]
        exact List.mem_append_right _ hmem
      | none => exact hmem
end

/-!
The message codec (src/hermesnet/protocol/messages.py). A wire frame is
modelled as the command code (the first byte) together with the payload.
UTF-8 `encode`/`decode` and `json.dumps`/`json.loads` are inverse
standard-library bijections between payload values and payload bytes, so
the payload is modelled at the decoded level: either text, or a JSON
value. A decoder applied to the wrong payload kind (never produced by
any encoder for that command code) is modelled as a decode failure.
-/

/-- Model of `messages.User`: a named tuple of username and address. -/
structure User where
  username : Str
  ip_address : Str
deriving DecidableEq, Repr

/-- The payload of a wire frame at the decoded level. -/
inductive WireData where
  | text (s : Str)
  | jsonv (j : Json)
deriving DecidableEq, Repr

/-- Model of the `ServerMessage` variants and their fields. -/
inductive ServerMessage where
  | login (username password : Str)
  | wrongPassword
  | ping (message : Str)
  | pong (message : Str)
  | all
  | ok
  | error (error_text : Str)
  | declare (directory : Directory)
  | search (search_term : Str)
  | searchResults (results : List (User × List Directory))
  | fin
  | query (file_hash : Str)
  | querySearchResults (results : List User)
deriving DecidableEq, Repr

/-- A user encoded by `json.dumps` (a named tuple becomes a two-element
array). -/
def encodeUser (u : User) : Json :=
  .arr (JsonList.ofList [.str u.username, .str u.ip_address])

/-- One entry of the `SearchResults` payload:
`[[username, ip], [directory-dict, ...]]`. -/
def encodeResultEntry (p : User × List Directory) : Json :=
  .arr (JsonList.ofList
    [encodeUser p.1, .arr (JsonList.ofList (p.2.map Directory.to_dict))])

/-- Model of `__bytes__` of every message class: the one-byte command
code, followed by the payload. -/
def ServerMessage.to_bytes : ServerMessage → Nat × WireData
  | .login u p => (30, .text (u ++ ':' :: p))
  | .wrongPassword => (19, .text [])
  | .ping m => (10, .text m)
  | .pong m => (11, .text m)
  | .all => (20, .text [])
  | .ok => (1, .text [])
  | .error e => (80, .text e)
  | .declare d => (15, .jsonv d.to_dict)
  | .search t => (40, .text t)
  | .searchResults rs =>
    (41, .jsonv (.arr (JsonList.ofList (rs.map encodeResultEntry))))
  | .fin => (75, .text [])
  | .query h => (43, .text h)
  | .querySearchResults us =>
    (42, .jsonv (.arr (JsonList.ofList (us.map encodeUser))))

/-- The elements of a JSON array as an ordinary list. -/
def JsonList.toList : JsonList → List Json
  | .nil => []
  | .cons j rest => j :: rest.toList

/-- The loop of `SearchResults._from_bytes` over one entry's directory
dicts: each element must be a dict satisfying `is_directorydict` and is
parsed by `Directory.from_dict`. -/
def decodeDirsList : List Json → Option (List Directory)
  | [] => some []
  | j :: rest =>
    match j with
    | .obj fields =>
      if is_directorydict (.obj fields) then
        match Directory.from_dict (.obj fields) with
        | some d => (decodeDirsList rest).map (d :: ·)
        | none => none
      else none
    | _ => none

/-- Decoding of one `SearchResults` entry: the `_is_entry` guard plus the
tuple unpacking, which together require exactly the shape
`[[username, ip], [dict, ...]]` (a longer or shorter tuple raises
`ValueError` at the unpacking). -/
def decodeResultEntry (j : Json) : Option (User × List Directory) :=
  match j with
  | .arr (.cons (.arr (.cons (.str u) (.cons (.str i) .nil)))
      (.cons (.arr dirdicts) .nil)) =>
    (decodeDirsList dirdicts.toList).map (fun ds => (⟨u, i⟩, ds))
  | _ => none

/-- Model of a Python dict item assignment `results[k] = v` on an
insertion-ordered association list: replace the value of the first entry
with an equal key, or append a new entry. -/
def dictInsert (l : List (User × List Directory)) (k : User)
    (v : List Directory) : List (User × List Directory) :=
  match l with
  | [] => [(k, v)]
  | (k', v') :: rest =>
    if k' = k then (k', v) :: rest else (k', v') :: dictInsert rest k v

/-- The entry loop of `SearchResults._from_bytes`, building the results
dict. -/
def decodeResultEntries : List Json → List (User × List Directory) →
    Option (List (User × List Directory))
  | [], acc => some acc
  | j :: rest, acc =>
    match decodeResultEntry j with
    | some (u, ds) => decodeResultEntries rest (dictInsert acc u ds)
    | none => none

/-- The loop of `QuerySearchResults._from_bytes`: the
`_is_list_of_lists_of_two_strings` guard plus the unpacking
`for name, addr in parsed`, which together require every element to be
exactly a two-string array. -/
def decodeUsers : List Json → Option (List User)
  | [] => some []
  | .arr (.cons (.str n) (.cons (.str a) .nil)) :: rest =>
    (decodeUsers rest).map (⟨n, a⟩ :: ·)
  | _ :: _ => none

/-- Model of `messages.from_bytes` / `ServerMessage.from_bytes`: dispatch
on the command byte to the registered class, then run that class's
payload decoder; `none` models a raised `ValueError`. The classes with no
`_from_bytes` override ignore the payload. -/
def from_bytes : Nat × WireData → Option ServerMessage
  | (code, w) =>
    match code with
    | 30 =>
      match w with
      | .text s =>
        match pySplit ':' s with
        | [u, p] => some (.login u p)
        | _ => none
      | .jsonv _ => none
    | 19 => some .wrongPassword
    | 10 =>
      match w with
      | .text s => some (.ping s)
      | .jsonv _ => none
    | 11 =>
      match w with
      | .text s => some (.pong s)
      | .jsonv _ => none
    | 20 => some .all
    | 1 => some .ok
    | 80 =>
      match w with
      | .text s => some (.error s)
      | .jsonv _ => none
    | 15 =>
      match w with
      | .jsonv (.obj fields) =>
        if is_directorydict (.obj fields) then
          match Directory.from_dict (.obj fields) with
          | some d => some (.declare d)
          | none => none
        else none
      | _ => none
    | 40 =>
      match w with
      | .text s => some (.search s)
      | .jsonv _ => none
    | 41 =>
      match w with
      | .jsonv (.arr entries) =>
        (decodeResultEntries entries.toList []).map ServerMessage.searchResults
      | _ => none
    | 75 => some .fin
    | 43 =>
      match w with
      | .text s => some (.query s)
      | .jsonv _ => none
    | 42 =>
      match w with
      | .jsonv (.arr users) =>
        (decodeUsers users.toList).map ServerMessage.querySearchResults
      | _ => none
    | _ => none

theorem JsonList.toList_ofList (l : List Json) :
    (JsonList.ofList l).toList = l := by
  induction l with
  | nil => rfl
  | cons j rest ih => rw [JsonList.ofList, JsonList.toList, ih]

theorem Directory.to_dict_obj (d : Directory) :
    ∃ fields : JsonObj, d.to_dict = Json.obj fields := by
  match d with
  | .mk n cs => exact ⟨_, by rw [Directory.to_dict]⟩

theorem decodeDirsList_encode : ∀ dirs : List Directory,
    decodeDirsList (dirs.map Directory.to_dict) = some dirs
  | [] => rfl
  | d :: rest => by
    obtain ⟨fields, hf⟩ := Directory.to_dict_obj d
    have h1 : is_directorydict (.obj fields) = true :=
      hf ▸ is_directorydict_to_dict d
    have h2 : Directory.from_dict (.obj fields) = some d :=
      hf ▸ Directory.from_dict_to_dict d
    simp [List.map_cons, hf, decodeDirsList, h1, h2, decodeDirsList_encode rest]

theorem decodeResultEntry_encode (u : User) (ds : List Directory) :
    decodeResultEntry (encodeResultEntry (u, ds)) = some (u, ds) := by
  simp [encodeResultEntry, encodeUser, JsonList.ofList, decodeResultEntry,
    JsonList.toList_ofList, decodeDirsList_encode ds]

theorem decodeUsers_encode : ∀ us : List User,
    decodeUsers (us.map encodeUser) = some us
  | [] => rfl
  | u :: rest => by
    simp [List.map_cons, encodeUser, JsonList.ofList, decodeUsers,
      decodeUsers_encode rest]

theorem decodeResultEntries_encode : ∀ (rs : List (User × List Directory))
    (acc : List (User × List Directory)),
    decodeResultEntries (rs.map encodeResultEntry) acc =
      some (rs.foldl (fun a p => dictInsert a p.1 p.2) acc)
  | [], acc => rfl
  | p :: rest, acc => by
    obtain ⟨u, ds⟩ := p
    rw [List.map_cons, decodeResultEntries, decodeResultEntry_encode u ds]
    show decodeResultEntries (List.map encodeResultEntry rest) (dictInsert acc u ds) =
      some (List.foldl (fun a p => dictInsert a p.1 p.2) acc ((u, ds) :: rest))
    rw [decodeResultEntries_encode rest (dictInsert acc u ds)]
    rfl

theorem dictInsert_not_mem (k : User) (v : List Directory) :
    ∀ l : List (User × List Directory), k ∉ l.map Prod.fst →
      dictInsert l k v = l ++ [(k, v)]
  | [], _ => rfl
  | (k', v') :: rest, h => by
    simp only [List.map_cons, List.mem_cons, not_or] at h
    rw [dictInsert, if_neg (fun he => h.1 he.symm),
      dictInsert_not_mem k v rest h.2]
    rfl

theorem foldl_dictInsert (rs : List (User × List Directory)) :
    ∀ acc : List (User × List Directory),
    (rs.map Prod.fst).Nodup →
    (∀ k ∈ rs.map Prod.fst, k ∉ acc.map Prod.fst) →
    rs.foldl (fun a p => dictInsert a p.1 p.2) acc = acc ++ rs := by
  induction rs with
  | nil => intro acc _ _; simp
  | cons p rest ih =>
    intro acc hnd hdisj
    simp only [List.map_cons, List.nodup_cons] at hnd
    have hp : p.1 ∉ acc.map Prod.fst :=
      hdisj p.1 (by simp)
    rw [List.foldl_cons, dictInsert_not_mem p.1 p.2 acc hp]
    rw [ih (acc ++ [p]) hnd.2 ?_]
    · simp
    · intro k hk
      simp only [List.map_append, List.mem_append, not_or]
      refine ⟨hdisj k (by simp [hk]), ?_⟩
      simp only [List.map_cons, List.map_nil, List.mem_singleton]
      intro he
      rw [← Prod.mk.eta (p := p)] at hnd
      exact hnd.1 (he ▸ hk)

/-- The searchResults payload of a message must come from a Python dict,
whose keys are pairwise distinct; other variants are unconstrained. -/
def ServerMessage.wellFormedDict : ServerMessage → Prop
  | .searchResults rs => (rs.map Prod.fst).Nodup
  | _ => True

/-- The username and password of a login message contain no `:` (the
separator of the login payload); other variants are unconstrained. -/
def ServerMessage.loginColonFree : ServerMessage → Prop
  | .login u p => ':' ∉ u ∧ ':' ∉ p
  | _ => True

/-- C1: decoding an encoded message returns an equal message, for every
well-formed message whose login fields are free of the `:` separator
(the amended form of the claim; see the counterexample for the original
form with arbitrary login strings). -/
theorem C1_roundtrip (m : ServerMessage) (hd : m.wellFormedDict)
    (hc : m.loginColonFree) : from_bytes m.to_bytes = some m := by
  cases m with
  | login u p =>
    obtain ⟨hu, hp⟩ := hc
    simp [ServerMessage.to_bytes, from_bytes, pySplit_append ':' u p hu hp]
  | wrongPassword => rfl
  | ping s => rfl
  | pong s => rfl
  | all => rfl
  | ok => rfl
  | error e => rfl
  | declare d =>
    obtain ⟨fields, hf⟩ := Directory.to_dict_obj d
    have h1 : is_directorydict (.obj fields) = true :=
      hf ▸ is_directorydict_to_dict d
    have h2 : Directory.from_dict (.obj fields) = some d :=
      hf ▸ Directory.from_dict_to_dict d
    simp [ServerMessage.to_bytes, from_bytes, hf, h1, h2]
  | search s => rfl
  | searchResults rs =>
    have hnd : (rs.map Prod.fst).Nodup := hd
    simp [ServerMessage.to_bytes, from_bytes, JsonList.toList_ofList,
      decodeResultEntries_encode rs [], foldl_dictInsert rs [] hnd (by simp)]
  | fin => rfl
  | query h => rfl
  | querySearchResults us =>
    simp [ServerMessage.to_bytes, from_bytes, JsonList.toList_ofList,
      decodeUsers_encode us]

/-- Witness for C1 at a concrete login message. -/
theorem C1_witness :
    from_bytes (ServerMessage.to_bytes (.login "alice".data "pw".data)) =
      some (.login "alice".data "pw".data) :=
  C1_roundtrip (.login "alice".data "pw".data) trivial ⟨by decide, by decide⟩

/-- Counterexample to C1 as frozen: a login whose username contains the
`:` separator does not survive the round trip (decoding raises
`ValueError` at the tuple unpacking of `split`). -/
theorem C1_counterexample :
    from_bytes (ServerMessage.to_bytes (.login "a:b".data "c".data)) ≠
      some (.login "a:b".data "c".data) := by decide

/-!
The server request processor (src/hermesnet/server/processor.py): the
per-connection user states, the user manager, and the request handler.
The wall-clock `last_connected` timestamps of disconnected users are
omitted from the model (no code path reads them). The connection's
current logged-in user is an alias into the shared manager, modelled as
the index of that user in `logged_in_users`.
-/

/-- Model of `processor.LoggedInUser`: address, credentials and the
declared directories. -/
structure LoggedInUser where
  addr : Str × Int
  name : Str
  password : Str
  declared_dirs : List Directory
deriving DecidableEq, Repr

/-- Model of `processor.LoggedOutUser` (without the wall-clock
timestamp). -/
structure LoggedOutUser where
  name : Str
  password : Str
deriving DecidableEq, Repr

/-- Model of `processor.OnlineGuest`. -/
structure OnlineGuest where
  addr : Str × Int
deriving DecidableEq, Repr

/-- Model of `processor.UserManager`: the four user pools. An
`OfflineGuest` record holds only its wall-clock timestamp, which the
model omits, so the pool of offline guests is kept as its length. -/
structure UserManager where
  logged_in_users : List LoggedInUser
  logged_out_users : List LoggedOutUser
  online_guests : List OnlineGuest
  offline_guests : Nat
deriving DecidableEq, Repr

/-- Model of `LoggedInUser.to_tuple`: the protocol user, from name and
the address host. -/
def LoggedInUser.to_tuple (u : LoggedInUser) : User :=
  ⟨u.name, u.addr.1⟩

/-- Model of `LoggedInUser.decalre_dir` (sic): append the directory to
`declared_dirs`. -/
def LoggedInUser.decalre_dir (u : LoggedInUser) (dir : Directory) :
    LoggedInUser :=
  { u with declared_dirs := u.declared_dirs ++ [dir] }

/-- The two exceptions `UserManager._log_in_guest` can raise. -/
inductive LoginFailure where
  | lookupError
  | permissionError
deriving DecidableEq, Repr

/-- Model of `UserManager.create_guest`. -/
def UserManager.create_guest (m : UserManager) (addr : Str × Int) :
    UserManager × OnlineGuest :=
  ({ m with online_guests := m.online_guests ++ [⟨addr⟩] }, ⟨addr⟩)

/-- Model of `UserManager._log_in_guest`: find the first logged-out user
with the requested name (`LookupError` if none), check the password
(`PermissionError` on mismatch), then move the guest out of
`online_guests`, drop the logged-out record, and append the new
logged-in user; the returned index is its position in
`logged_in_users`. Python's `list.remove` drops the first element equal
to its argument, modelled by `List.erase`. -/
def UserManager.log_in_guest (m : UserManager) (guest : OnlineGuest)
    (name password : Str) : Except LoginFailure (UserManager × Nat) :=
  match m.logged_out_users.find? (fun u => u.name = name) with
  | none => .error .lookupError
  | some user =>
    if user.password ≠ password then .error .permissionError
    else
      .ok ({ m with
              online_guests := m.online_guests.erase guest,
              logged_out_users := m.logged_out_users.erase user,
              logged_in_users :=
                m.logged_in_users ++ [⟨guest.addr, user.name, user.password, []⟩] },
            m.logged_in_users.length)

/-- Model of `UserManager._register_guest`: append a fresh logged-in user
and drop the guest. -/
def UserManager.register_guest (m : UserManager) (guest : OnlineGuest)
    (name password : Str) : UserManager × Nat :=
  ({ m with
      logged_in_users := m.logged_in_users ++ [⟨guest.addr, name, password, []⟩],
      online_guests := m.online_guests.erase guest },
    m.logged_in_users.length)

/-- Model of `UserManager.login_or_register_guest`: try to log in;
re-raise a `PermissionError`; on `LookupError` register a fresh
account. -/
def UserManager.login_or_register_guest (m : UserManager)
    (guest : OnlineGuest) (name password : Str) :
    Except LoginFailure (UserManager × Nat) :=
  match m.log_in_guest guest name password with
  | .ok r => .ok r
  | .error .permissionError => .error .permissionError
  | .error .lookupError => .ok (m.register_guest guest name password)

/-- Model of `UserManager.disconnect_guest`: record an offline guest and
drop the first equal online guest. -/
def UserManager.disconnect_guest (m : UserManager) (guest : OnlineGuest) :
    UserManager :=
  { m with
      offline_guests := m.offline_guests + 1,
      online_guests := m.online_guests.erase guest }

/-- Model of `UserManager.log_out_user`: drop the first logged-in user
equal to the given one and append the logged-out record. -/
def UserManager.log_out_user (m : UserManager) (user : LoggedInUser) :
    UserManager × LoggedOutUser :=
  ({ m with
      logged_in_users := m.logged_in_users.erase user,
      logged_out_users := m.logged_out_users ++ [⟨user.name, user.password⟩] },
    ⟨user.name, user.password⟩)

/-- The state of one connection, as dispatched on by
`Processor._handle_request`: a guest, a logged-in user (an alias into
`logged_in_users`, modelled by its index), or a disconnected user. -/
inductive UserState where
  | guest (g : OnlineGuest)
  | member (i : Nat)
  | loggedOut (u : LoggedOutUser)
  | offlineGuest
deriving DecidableEq, Repr

/-- Model of the Python dict key test `k in files` for the hash index. -/
def hashIndexContains (files : List (Str × List User)) (h : Str) : Bool :=
  files.any (fun p => p.1 = h)

/-- Model of `files[hash].append(user)`: append the user to the value of
the first entry carrying this hash. -/
def hashIndexAppend (files : List (Str × List User)) (h : Str) (u : User) :
    List (Str × List User) :=
  match files with
  | [] => []
  | (k, v) :: rest =>
    if k = h then (k, v ++ [u]) :: rest else (k, v) :: hashIndexAppend rest h u

/-- The body of the file loop in `Processor._get_all_files`: create a
one-element list for a new hash, append for a known hash. -/
def addFileUser (files : List (Str × List User)) (h : Str) (u : User) :
    List (Str × List User) :=
  if hashIndexContains files h then hashIndexAppend files h u
  else files ++ [(h, [u])]

/-- The files of every directory a user declared, in declaration order
(the generator expression in `Processor._get_all_files` filtered to
files). -/
def LoggedInUser.allFiles (u : LoggedInUser) : List File :=
  u.declared_dirs.flatMap Directory.files

/-- Model of `Processor._get_all_files`: fold the per-user files into a
hash-to-users mapping. -/
def Processor.get_all_files (m : UserManager) : List (Str × List User) :=
  m.logged_in_users.foldl
    (fun files u =>
      u.allFiles.foldl (fun fs f => addFileUser fs f.hash u.to_tuple) files)
    []

/-- Dict lookup in the hash index: the value of the first entry carrying
the hash. -/
def hashIndexLookup (files : List (Str × List User)) (h : Str) :
    Option (List User) :=
  (files.find? (fun p => p.1 = h)).map Prod.snd

/-- Model of `Processor._query_file`: the users of the hash entry, or an
empty result when the hash is unknown (`KeyError`). -/
def Processor.query_file (m : UserManager) (h : Str) : ServerMessage :=
  match hashIndexLookup (Processor.get_all_files m) h with
  | some us => .querySearchResults us
  | none => .querySearchResults []

/-- Model of `Processor._get_all_dirs`: every logged-in user mapped to
its full list of declared directories (a dict comprehension, built with
dict insertion semantics). -/
def Processor.get_all_dirs (m : UserManager) : ServerMessage :=
  .searchResults
    (m.logged_in_users.foldl
      (fun acc u => dictInsert acc u.to_tuple u.declared_dirs) [])

/-- Model of `Processor._search`: per logged-in user, the non-none
filtered results of its declared directories; users with no matching
directory are dropped. -/
def Processor.search (m : UserManager) (term : Str) : ServerMessage :=
  .searchResults
    (m.logged_in_users.foldl
      (fun acc u =>
        let searched := u.declared_dirs.filterMap (Directory.search term)
        if searched.isEmpty then acc
        else dictInsert acc u.to_tuple searched)
      [])

/-- The declare branch of `Processor._handle_request`: the aliased
mutation `user.decalre_dir(dir)` updates the user in place inside
`logged_in_users`. -/
def Processor.declare_dir (m : UserManager) (i : Nat) (dir : Directory) :
    UserManager :=
  match m.logged_in_users[i]? with
  | some u =>
    { m with logged_in_users := m.logged_in_users.set i (u.decalre_dir dir) }
  | none => m

/-- Model of `Processor._handle_request`: dispatch on the pair of user
state and request, in source order. A connected user is a guest or a
member index; the branches returning a disconnected state produce no
response. The member branches indexing an absent position cannot arise
(the connection's user is always inside the manager) and leave the state
unchanged. -/
def Processor.handle_request (m : UserManager) (u : UserState)
    (req : ServerMessage) : UserManager × UserState × Option ServerMessage :=
  match u, req with
  | .member i, .fin =>
    match m.logged_in_users[i]? with
    | some user =>
      let r := m.log_out_user user
      (r.1, .loggedOut r.2, none)
    | none => (m, u, none)
  | .guest g, .fin => (m.disconnect_guest g, .offlineGuest, none)
  | .guest g, .login name password =>
    match m.login_or_register_guest g name password with
    | .ok (m', i) => (m', .member i, some .ok)
    | .error _ => (m, .guest g, some .wrongPassword)
  | .guest g, _ =>
    (m, .guest g, some (.error "Unregistered users are only allowed to login!".data))
  | .member i, .ping msg => (m, .member i, some (.pong msg))
  | .member i, .declare dir => (Processor.declare_dir m i dir, .member i, some .ok)
  | .member i, .all => (m, .member i, some (Processor.get_all_dirs m))
  | .member i, .search term => (m, .member i, some (Processor.search m term))
  | .member i, .query h => (m, .member i, some (Processor.query_file m h))
  | .member i, _ => (m, .member i, some (.error "Unrecognized command??".data))
  | .loggedOut _, _ => (m, u, none)
  | .offlineGuest, _ => (m, u, none)

/-!
The two session transports (C8): tcp_network.Session and
network.Session. A session is modelled by its `_is_closed` flag; the
outcome of a call is the new state, the list of protocol messages
handed to the transport during the call, and the exception it raises,
if any. Whether the underlying stream write succeeds is an input
(`writeOk`).
-/

/-- The exceptions relevant to the sessions. -/
inductive PyError where
  | valueError
  | connectionAborted
deriving DecidableEq, Repr

/-- Model of `tcp_network.Session`: the `_is_closed` flag. -/
structure TcpSession where
  is_closed : Bool
deriving DecidableEq, Repr

/-- Model of `tcp_network.Session.disconnect`:
`_verify_the_socket_is_open` raises `ValueError` on a closed session;
otherwise the writer is closed and the flag set. No Fin message is
sent. -/
def TcpSession.disconnect (s : TcpSession) :
    Except PyError (TcpSession × List ServerMessage) :=
  if s.is_closed then .error .valueError
  else .ok ({ is_closed := true }, [])

/-- Model of `network.Session`: the `_is_closed` flag. -/
structure NetSession where
  is_closed : Bool
deriving DecidableEq, Repr

/-- Model of `network.Session.send_message`: a closed session raises
`ValueError`; a failed stream write (`OSError`) marks the session closed
and raises `ConnectionAbortedError`; otherwise the encoded message is
written. -/
def NetSession.send_message (writeOk : Bool) (s : NetSession)
    (msg : ServerMessage) : NetSession × List ServerMessage × Option PyError :=
  if s.is_closed then (s, [], some .valueError)
  else if writeOk then (s, [msg], none)
  else ({ is_closed := true }, [], some .connectionAborted)

/-- Model of `network.Session.disconnect`: return immediately when
already closed; otherwise send a Fin message (an exception raised there
propagates out of `disconnect`, leaving the writer open), then close the
writer and set the flag. -/
def NetSession.disconnect (writeOk : Bool) (s : NetSession) :
    NetSession × List ServerMessage × Option PyError :=
  if s.is_closed then (s, [], none)
  else
    match NetSession.send_message writeOk s .fin with
    | (_, msgs, none) => ({ is_closed := true }, msgs, none)
    | (s', msgs, some e) => (s', msgs, some e)

/-!
Concrete sample data used by witnesses and counterexamples.
-/

/-- A sample file. -/
def sampleFile : File := ⟨"readme.txt".data, "h1".data, 5⟩

/-- A sample directory declaring one file. -/
def sampleDir : Directory := .mk "docs".data (.consFile sampleFile .nil)

/-- A sample logged-in user who has declared `sampleDir`. -/
def sampleUser : LoggedInUser :=
  ⟨("1.2.3.4".data, 5), "alice".data, "pw".data, [sampleDir]⟩

/-- A sample manager with one logged-in user. -/
def sampleManager : UserManager := ⟨[sampleUser], [], [], 0⟩

/-!
The claims about the search filter.
-/

/-- C2: the search behaves exactly as the specification describes it —
a term occurring in the directory name short-circuits to an unfiltered
deep copy of the whole subtree (equal to the directory itself);
otherwise the kept children are exactly those of the specification
filter, with none returned when no child is kept. -/
theorem C2_search_spec (t : Str) (d : Directory) :
    (strIn t d.name = true → d.search t = some d) ∧
    (strIn t d.name = false →
      d.search t =
        if specKeptChildren t d.contents.toList = [] then none
        else some (.mk d.name
          (Contents.ofList (specKeptChildren t d.contents.toList)))) := by
  constructor
  · exact search_name_match t d
  · intro h
    match d with
    | .mk n cs =>
      rw [Directory.name] at h
      rw [Directory.search, if_neg (by simp [h]), Directory.contents,
        Directory.name]
      rw [searchAll_eq_specKept t cs]
      simp only [Contents.isEmpty_ofList]
      by_cases he : specKeptChildren t cs.toList = []
      · rw [if_pos (by simp [he]), if_pos he]
      · rw [if_neg (by simp [List.isEmpty_iff, he]), if_neg he]

/-- Witness for C2 on the sample directory, in both branches. -/
theorem C2_witness :
    Directory.search "doc".data sampleDir = some sampleDir ∧
    Directory.search "zzz".data sampleDir =
      (if specKeptChildren "zzz".data sampleDir.contents.toList = [] then none
       else some (.mk sampleDir.name
        (Contents.ofList (specKeptChildren "zzz".data sampleDir.contents.toList)))) :=
  ⟨(C2_search_spec "doc".data sampleDir).1 (by decide),
   (C2_search_spec "zzz".data sampleDir).2 (by decide)⟩

/-- Counterexample to C3 as frozen: searching a directory whose own name
matches returns the unfiltered subtree, so the result can yield a file
whose name does not contain the term. -/
theorem C3_counterexample :
    Directory.search "a".data
        (.mk "a".data (.consFile ⟨"b".data, "h".data, 1⟩ .nil)) =
      some (.mk "a".data (.consFile ⟨"b".data, "h".data, 1⟩ .nil)) ∧
    (⟨"b".data, "h".data, 1⟩ : File) ∈
      (Directory.mk "a".data (.consFile ⟨"b".data, "h".data, 1⟩ .nil)).files ∧
    strIn "a".data "b".data = false := by decide

/-- C3 amended: every file yielded by a search result either contains
the term in its name or sits below a directory node of the result whose
own name contains the term (that subtree being returned unfiltered);
conversely, every file of the tree whose name contains the term appears
in the search result. -/
theorem C3_amended :
    (∀ (t : Str) (d r : Directory), d.search t = some r → ∀ f ∈ r.files,
      strIn t f.name = true ∨
        ∃ sub : Directory, Sum.inr sub ∈ r.nodes ∧ strIn t sub.name = true ∧
          f ∈ sub.files) ∧
    (∀ (t : Str) (d : Directory), ∀ f ∈ d.files, strIn t f.name = true →
      ∃ r : Directory, d.search t = some r ∧ f ∈ r.files) :=
  ⟨fun t => search_sound t, fun t => search_complete t⟩

/-- Witness for C3 amended, on the sample directory. -/
theorem C3_witness :
    (strIn "read".data sampleFile.name = true ∨
      ∃ sub : Directory, Sum.inr sub ∈
          (Directory.mk "docs".data (.consFile sampleFile .nil)).nodes ∧
        strIn "read".data sub.name = true ∧ sampleFile ∈ sub.files) ∧
    (∃ r : Directory, sampleDir.search "read".data = some r ∧
      sampleFile ∈ r.files) :=
  ⟨C3_amended.1 "read".data sampleDir
      (.mk "docs".data (.consFile sampleFile .nil)) (by decide) sampleFile
      (by decide),
   C3_amended.2 "read".data sampleDir sampleFile (by decide) (by decide)⟩

/-- C9: searching with the empty term always succeeds, returning a deep
copy of the whole tree, which is equal to the directory itself. -/
theorem C9_empty_search (d : Directory) :
    d.search [] = some d.copy ∧ d.copy = d := by
  refine ⟨?_, Directory.copy_eq d⟩
  rw [Directory.copy_eq d]
  exact search_name_match [] d (by rw [strIn_nil])

/-!
The claims about the request handler.
-/

/-- The requests of a logged-in user that fall through to the
catch-all branch of the handler: everything except Fin, Ping, Declare,
All, Search and Query. -/
def isUnrecognized : ServerMessage → Bool
  | .fin | .ping _ | .declare _ | .all | .search _ | .query _ => false
  | _ => true

/-- Counterexample to C7 as frozen: the catch-all response text is
`Unrecognized command??`, not `Unrecognized command`. -/
theorem C7_counterexample :
    (Processor.handle_request sampleManager (.member 0) .ok).2.2 ≠
      some (.error "Unrecognized command".data) := by decide

/-- C7 amended: every request of a logged-in user other than Fin, Ping,
Declare, All, Search or Query leaves the manager and the user state
unchanged and is answered exactly by the error text
`Unrecognized command??`. -/
theorem C7_amended (m : UserManager) (i : Nat) (req : ServerMessage)
    (h : isUnrecognized req = true) :
    Processor.handle_request m (.member i) req =
      (m, .member i, some (.error "Unrecognized command??".data)) := by
  cases req <;> simp_all [Processor.handle_request, isUnrecognized]

/-- Witness for C7 amended at a concrete state and request. -/
theorem C7_witness :
    Processor.handle_request sampleManager (.member 0) .ok =
      (sampleManager, .member 0, some (.error "Unrecognized command??".data)) :=
  C7_amended sampleManager 0 .ok (by decide)

/-- The read-only requests of a logged-in user: Ping, All, Search and
Query. -/
def isQueryLike : ServerMessage → Bool
  | .ping _ | .all | .search _ | .query _ => true
  | _ => false

/-- C10: handling a Ping, All, Search or Query request of a logged-in
user returns the manager unchanged, keeps the same user state, and
produces a response; in particular every later All, Search or Query
request is answered from the identical manager. -/
theorem C10_read_only (m : UserManager) (i : Nat) (req : ServerMessage)
    (h : isQueryLike req = true) :
    (Processor.handle_request m (.member i) req).1 = m ∧
    (Processor.handle_request m (.member i) req).2.1 = .member i ∧
    ((Processor.handle_request m (.member i) req).2.2).isSome = true := by
  cases req <;> simp_all [Processor.handle_request, isQueryLike]

/-- Witness for C10 at a concrete state and request. -/
theorem C10_witness :
    (Processor.handle_request sampleManager (.member 0) (.ping "hi".data)).1 =
        sampleManager ∧
    (Processor.handle_request sampleManager (.member 0)
        (.ping "hi".data)).2.1 = .member 0 ∧
    ((Processor.handle_request sampleManager (.member 0)
        (.ping "hi".data)).2.2).isSome = true :=
  C10_read_only sampleManager 0 (.ping "hi".data) (by decide)

/-- C6: for an account reachable for login (the first logged-out record
with the requested name), a login with a wrong password answers
WrongPassword and leaves the manager — hence the stored account record —
and the guest unchanged; a subsequent login with the correct password on
the same connection succeeds with Ok, moving the guest to a fresh
logged-in user appended to `logged_in_users`. -/
theorem C6_wrong_password (m : UserManager) (g : OnlineGuest)
    (name wrong : Str) (rec : LoggedOutUser)
    (hfind : m.logged_out_users.find? (fun u => u.name = name) = some rec)
    (hwrong : rec.password ≠ wrong) :
    Processor.handle_request m (.guest g) (.login name wrong) =
      (m, .guest g, some .wrongPassword) ∧
    Processor.handle_request m (.guest g) (.login name rec.password) =
      ({ m with
          online_guests := m.online_guests.erase g,
          logged_out_users := m.logged_out_users.erase rec,
          logged_in_users :=
            m.logged_in_users ++ [⟨g.addr, rec.name, rec.password, []⟩] },
        .member m.logged_in_users.length, some .ok) := by
  constructor
  · simp [Processor.handle_request, UserManager.login_or_register_guest,
      UserManager.log_in_guest, hfind, hwrong]
  · simp [Processor.handle_request, UserManager.login_or_register_guest,
      UserManager.log_in_guest, hfind]

/-- Witness for C6 at a concrete manager holding one logged-out
account. -/
theorem C6_witness :
    Processor.handle_request ⟨[], [⟨"bob".data, "secret".data⟩],
        [⟨("9.9.9.9".data, 1)⟩], 0⟩ (.guest ⟨("9.9.9.9".data, 1)⟩)
        (.login "bob".data "nope".data) =
      (⟨[], [⟨"bob".data, "secret".data⟩], [⟨("9.9.9.9".data, 1)⟩], 0⟩,
        .guest ⟨("9.9.9.9".data, 1)⟩, some .wrongPassword) ∧
    Processor.handle_request ⟨[], [⟨"bob".data, "secret".data⟩],
        [⟨("9.9.9.9".data, 1)⟩], 0⟩ (.guest ⟨("9.9.9.9".data, 1)⟩)
        (.login "bob".data "secret".data) =
      (⟨[⟨("9.9.9.9".data, 1), "bob".data, "secret".data, []⟩], [], [], 0⟩,
        .member 0, some .ok) := by
  have h := C6_wrong_password ⟨[], [⟨"bob".data, "secret".data⟩],
    [⟨("9.9.9.9".data, 1)⟩], 0⟩ ⟨("9.9.9.9".data, 1)⟩ "bob".data "nope".data
    ⟨"bob".data, "secret".data⟩ (by decide) (by decide)
  exact ⟨h.1, by rw [h.2]; decide⟩

/-- Counterexample to C8 as frozen: the tcp session disconnect raises
`ValueError` on an already-closed session (not idempotent) and sends no
Fin message; the network session disconnect propagates a transport
failure as `ConnectionAbortedError` instead of swallowing it. -/
theorem C8_counterexample :
    TcpSession.disconnect { is_closed := true } = .error .valueError ∧
    TcpSession.disconnect { is_closed := false } =
      .ok ({ is_closed := true }, []) ∧
    NetSession.disconnect false { is_closed := false } =
      ({ is_closed := true }, [], some .connectionAborted) := ⟨rfl, rfl, rfl⟩

/-- C8 amended: `network.Session.disconnect` is idempotent (an
already-closed session returns immediately), sends a Fin message and
closes on the open path, but propagates a transport failure as
`ConnectionAbortedError` after marking the session closed;
`tcp_network.Session.disconnect` raises `ValueError` on an
already-closed session and closes the transport without sending any
message otherwise. -/
theorem C8_amended :
    (∀ s : NetSession, s.is_closed = true →
      ∀ w : Bool, NetSession.disconnect w s = (s, [], none)) ∧
    (∀ s : NetSession, s.is_closed = false →
      NetSession.disconnect true s = ({ is_closed := true }, [.fin], none)) ∧
    (∀ s : NetSession, s.is_closed = false →
      NetSession.disconnect false s =
        ({ is_closed := true }, [], some .connectionAborted)) ∧
    (∀ s : TcpSession, s.is_closed = true →
      TcpSession.disconnect s = .error .valueError) ∧
    (∀ s : TcpSession, s.is_closed = false →
      TcpSession.disconnect s = .ok ({ is_closed := true }, [])) := by
  refine ⟨?_, ?_, ?_, ?_, ?_⟩
  · intro s hs w
    simp [NetSession.disconnect, hs]
  · intro s hs
    simp [NetSession.disconnect, NetSession.send_message, hs]
  · intro s hs
    simp [NetSession.disconnect, NetSession.send_message, hs]
  · intro s hs
    simp [TcpSession.disconnect, hs]
  · intro s hs
    simp [TcpSession.disconnect, hs]

/-- Witness for C8 amended at concrete sessions. -/
theorem C8_witness :
    NetSession.disconnect true { is_closed := true } =
      ({ is_closed := true }, [], none) ∧
    NetSession.disconnect true { is_closed := false } =
      ({ is_closed := true }, [.fin], none) :=
  ⟨C8_amended.1 { is_closed := true } rfl true,
   C8_amended.2.1 { is_closed := false } rfl⟩

/-!
Counting machinery for the hash index built by
`Processor._get_all_files` (C4 and C5).
-/

/-- The users recorded under a hash in the query answer: the entry of
the rebuilt index, or the empty list for an unknown hash. -/
def Processor.queryUsers (m : UserManager) (h : Str) : List User :=
  (hashIndexLookup (Processor.get_all_files m) h).getD []

/-- The query response is exactly the recorded users, with the empty
list standing in for an unknown hash. -/
theorem Processor.query_file_eq (m : UserManager) (h : Str) :
    Processor.query_file m h =
      .querySearchResults (Processor.queryUsers m h) := by
  rw [Processor.query_file, Processor.queryUsers]
  cases hashIndexLookup (Processor.get_all_files m) h <;> rfl

/-- The number of times a user is recorded under a hash. -/
def countIn (files : List (Str × List User)) (h : Str) (u : User) : Nat :=
  ((hashIndexLookup files h).getD []).count u

theorem lookup_hashIndexAppend (h' : Str) (u' : User) (h : Str) :
    ∀ files : List (Str × List User),
    hashIndexLookup (hashIndexAppend files h' u') h =
      if h = h' then (hashIndexLookup files h).map (· ++ [u'])
      else hashIndexLookup files h
  | [] => by by_cases he : h = h' <;> simp [hashIndexAppend, hashIndexLookup, he]
  | (k, v) :: rest => by
    rw [hashIndexAppend]
    by_cases hk : k = h'
    · rw [if_pos hk]
      by_cases hkh : k = h
      · have he : h = h' := hkh ▸ hk
        simp [hashIndexLookup, List.find?_cons, hkh, he]
      · have he : ¬(h = h') := fun hc => hkh (hk.trans hc.symm)
        simp [hashIndexLookup, List.find?_cons, hkh, he]
    · rw [if_neg hk]
      by_cases hkh : k = h
      · have he : ¬(h = h') := fun hc => hk (hkh.trans hc)
        simp [hashIndexLookup, List.find?_cons, hkh, he]
      · have ih := lookup_hashIndexAppend h' u' h rest
        simp only [hashIndexLookup] at ih
        simp [hashIndexLookup, List.find?_cons, hkh, ih]

theorem lookup_none_of_not_contains (h : Str) :
    ∀ files : List (Str × List User),
    hashIndexContains files h = false → hashIndexLookup files h = none
  | [] => by intro _; rfl
  | (k, v) :: rest => by
    intro hc
    simp only [hashIndexContains, List.any_cons, Bool.or_eq_false_iff] at hc
    have hk : ¬(k = h) := by
      intro he
      rw [he] at hc
      simp at hc
    have ih := lookup_none_of_not_contains h rest
      (by simp [hashIndexContains, hc.2])
    simp only [hashIndexLookup] at ih
    simp [hashIndexLookup, List.find?_cons, hk, ih]

theorem lookup_isSome_of_contains (h : Str) :
    ∀ files : List (Str × List User),
    hashIndexContains files h = true → (hashIndexLookup files h).isSome = true
  | [] => by intro hc; simp [hashIndexContains] at hc
  | (k, v) :: rest => by
    intro hc
    by_cases hk : k = h
    · simp [hashIndexLookup, List.find?_cons, hk]
    · simp only [hashIndexContains, List.any_cons, Bool.or_eq_true] at hc
      rcases hc with hc | hc
      · simp [hk] at hc
      · have ih := lookup_isSome_of_contains h rest (by simp [hashIndexContains, hc])
        simp only [hashIndexLookup] at ih ⊢
        simp [List.find?_cons, hk] at ih ⊢
        exact ih

theorem lookup_append_new (h' : Str) (u' : User) (h : Str)
    (files : List (Str × List User))
    (hnc : hashIndexContains files h' = false) :
    hashIndexLookup (files ++ [(h', [u'])]) h =
      if h = h' then some [u'] else hashIndexLookup files h := by
  induction files with
  | nil => by_cases he : h = h' <;> simp [hashIndexLookup, List.find?_cons, he, Ne.symm]
  | cons e rest ih =>
    obtain ⟨k, v⟩ := e
    simp only [hashIndexContains, List.any_cons, Bool.or_eq_false_iff] at hnc
    have ihr := ih (by simp [hashIndexContains, hnc.2])
    by_cases hk : k = h
    · have he : ¬(h = h') := by
        intro hc
        rw [hk, hc] at hnc
        simp at hnc
      simp [hashIndexLookup, List.find?_cons, hk, he]
    · simp only [hashIndexLookup, List.cons_append] at ihr ⊢
      simp [List.find?_cons, hk] at ihr ⊢
      by_cases he : h = h' <;> simp [he] at ihr ⊢ <;> exact ihr

theorem countIn_addFileUser (files : List (Str × List User)) (h' : Str)
    (u' : User) (h : Str) (u : User) :
    countIn (addFileUser files h' u') h u =
      countIn files h u + (if h = h' ∧ u' = u then 1 else 0) := by
  rw [addFileUser]
  by_cases hc : hashIndexContains files h'
  · rw [if_pos hc]
    rw [countIn, lookup_hashIndexAppend h' u' h files]
    by_cases he : h = h'
    · rw [if_pos he]
      have hsome := lookup_isSome_of_contains h' files hc
      rw [← he] at hsome
      match hlk : hashIndexLookup files h with
      | some v =>
        simp [countIn, hlk, List.count_append, List.count_cons, List.count_nil]
        by_cases hu : u' = u <;> simp [he, hu]
      | none => rw [hlk] at hsome; simp at hsome
    · rw [if_neg he]
      simp [countIn, he]
  · rw [if_neg hc]
    rw [countIn, lookup_append_new h' u' h files (by simpa using hc)]
    by_cases he : h = h'
    · rw [if_pos he]
      have hnone := lookup_none_of_not_contains h' files (by simpa using hc)
      rw [← he] at hnone
      rw [countIn, hnone]
      simp [List.count_cons, List.count_nil]
      by_cases hu : u' = u <;> simp [he, hu]
    · rw [if_neg he]
      simp [countIn, he]

theorem countIn_foldl_files (u' : User) (h : Str) (u : User) :
    ∀ (fl : List File) (files : List (Str × List User)),
    countIn (fl.foldl (fun fs f => addFileUser fs f.hash u') files) h u =
      countIn files h u +
        (if u' = u then fl.countP (fun f => decide (f.hash = h)) else 0)
  | [], files => by simp
  | f :: fl, files => by
    rw [List.foldl_cons, countIn_foldl_files u' h u fl (addFileUser files f.hash u')]
    rw [countIn_addFileUser files f.hash u' h u]
    rw [List.countP_cons]
    by_cases hu : u' = u
    · by_cases hh : h = f.hash
      · simp [hu, hh]
        omega
      · have : ¬(f.hash = h) := fun hc => hh hc.symm
        simp [hu, hh, this]
    · simp [hu]

theorem countIn_foldl_users (h : Str) (u : User) :
    ∀ (users : List LoggedInUser) (files : List (Str × List User)),
    countIn
        (users.foldl
          (fun fs v =>
            v.allFiles.foldl (fun fs f => addFileUser fs f.hash v.to_tuple) fs)
          files) h u =
      countIn files h u +
        (users.map (fun v =>
          if v.to_tuple = u
          then v.allFiles.countP (fun f => decide (f.hash = h)) else 0)).sum
  | [], files => by simp
  | v :: users, files => by
    rw [List.foldl_cons, countIn_foldl_users h u users]
    rw [countIn_foldl_files v.to_tuple h u v.allFiles files]
    rw [List.map_cons, List.sum_cons]
    omega

/-- The number of times a user appears in a query answer: one occurrence
per file with the queried hash, over the declared directories of every
logged-in user with that protocol identity. -/
theorem queryUsers_count (m : UserManager) (h : Str) (u : User) :
    (Processor.queryUsers m h).count u =
      (m.logged_in_users.map (fun v =>
        if v.to_tuple = u
        then v.allFiles.countP (fun f => decide (f.hash = h)) else 0)).sum := by
  have hgen := countIn_foldl_users h u m.logged_in_users []
  rw [show countIn [] h u = 0 from rfl, Nat.zero_add] at hgen
  rw [Processor.queryUsers, Processor.get_all_files, ← hgen]
  rfl

theorem sum_map_set (g : LoggedInUser → Nat) :
    ∀ (l : List LoggedInUser) (i : Nat) (v : LoggedInUser)
      (hi : i < l.length),
    ((l.set i v).map g).sum + g (l.get ⟨i, hi⟩) = (l.map g).sum + g v
  | [], i, v, hi => by simp at hi
  | a :: l, 0, v, hi => by
    simp only [List.set, List.map_cons, List.sum_cons, List.get]
    omega
  | a :: l, i + 1, v, hi => by
    simp only [List.set, List.map_cons, List.sum_cons, List.get]
    have := sum_map_set g l i v (by simpa using hi)
    omega

theorem LoggedInUser.to_tuple_decalre (u : LoggedInUser) (d : Directory) :
    (u.decalre_dir d).to_tuple = u.to_tuple := rfl

theorem LoggedInUser.allFiles_decalre (u : LoggedInUser) (d : Directory) :
    (u.decalre_dir d).allFiles = u.allFiles ++ d.files := by
  simp [LoggedInUser.decalre_dir, LoggedInUser.allFiles]

/-- Declaring one more directory raises the count of the declaring user
in any query answer by exactly the number of files of the new directory
carrying the queried hash; nothing else changes. -/
theorem declare_query_count (m : UserManager) (i : Nat) (d : Directory)
    (hsh : Str) (hi : i < m.logged_in_users.length) :
    (Processor.queryUsers
        (Processor.handle_request m (.member i) (.declare d)).1 hsh).count
        ((m.logged_in_users.get ⟨i, hi⟩).to_tuple) =
      (Processor.queryUsers m hsh).count
          ((m.logged_in_users.get ⟨i, hi⟩).to_tuple) +
        d.files.countP (fun f => decide (f.hash = hsh)) := by
  have hreq : (Processor.handle_request m (.member i) (.declare d)).1 =
      Processor.declare_dir m i d := rfl
  have hidx : m.logged_in_users[i]? = some (m.logged_in_users.get ⟨i, hi⟩) := by
    rw [List.getElem?_eq_getElem hi]
    rfl
  have hm : Processor.declare_dir m i d =
      { m with logged_in_users :=
          m.logged_in_users.set i ((m.logged_in_users.get ⟨i, hi⟩).decalre_dir d) } := by
    rw [Processor.declare_dir, hidx]
  rw [hreq, hm, queryUsers_count, queryUsers_count]
  dsimp only
  set u0 := m.logged_in_users.get ⟨i, hi⟩ with hu0
  set g : LoggedInUser → Nat := fun v =>
    if v.to_tuple = u0.to_tuple
    then v.allFiles.countP (fun f => decide (f.hash = hsh)) else 0 with hgdef
  have hsum := sum_map_set g m.logged_in_users i (u0.decalre_dir d) hi
  have hv : g (u0.decalre_dir d) =
      g u0 + d.files.countP (fun f => decide (f.hash = hsh)) := by
    rw [hgdef]
    simp [LoggedInUser.to_tuple_decalre, LoggedInUser.allFiles_decalre,
      List.countP_append]
  rw [hv] at hsum
  rw [← hu0] at hsum
  omega

/-- C4: after a logged-in user declares a directory, a query for the
hash of any file reachable inside it includes that user. -/
theorem C4_declare_query (m : UserManager) (i : Nat) (d : Directory)
    (f : File) (hi : i < m.logged_in_users.length) (hf : f ∈ d.files) :
    (m.logged_in_users.get ⟨i, hi⟩).to_tuple ∈
      Processor.queryUsers
        (Processor.handle_request m (.member i) (.declare d)).1 f.hash := by
  have hc := declare_query_count m i d f.hash hi
  have hpos : 0 < d.files.countP (fun g => decide (g.hash = f.hash)) := by
    rw [List.countP_pos_iff]
    exact ⟨f, hf, by simp⟩
  have hcount : 0 <
      (Processor.queryUsers
        (Processor.handle_request m (.member i) (.declare d)).1 f.hash).count
        ((m.logged_in_users.get ⟨i, hi⟩).to_tuple) := by omega
  exact List.count_pos_iff.1 hcount

/-- Witness for C4 at the sample state. -/
theorem C4_witness :
    (sampleManager.logged_in_users.get ⟨0, by decide⟩).to_tuple ∈
      Processor.queryUsers
        (Processor.handle_request sampleManager (.member 0)
          (.declare sampleDir)).1 sampleFile.hash :=
  C4_declare_query sampleManager 0 sampleDir sampleFile (by decide) (by decide)

/-- Counterexample to C5 as frozen: the index is rebuilt per query with
list semantics, so a second declare of the same directory changes the
query answer, and the user then appears twice. -/
theorem C5_counterexample :
    Processor.queryUsers
        (Processor.handle_request sampleManager (.member 0)
          (.declare sampleDir)).1 "h1".data ≠
      Processor.queryUsers sampleManager "h1".data ∧
    1 < (Processor.queryUsers
        (Processor.handle_request sampleManager (.member 0)
          (.declare sampleDir)).1 "h1".data).count
        ⟨"alice".data, "1.2.3.4".data⟩ := by decide

/-- C5 amended: the query index has list (occurrence) semantics and is
rebuilt on every query: declaring a directory again appends the user one
more time per file of that directory carrying the queried hash, so
declare is not idempotent with respect to query and a user can appear
several times in one answer. -/
theorem C5_amended (m : UserManager) (i : Nat) (d : Directory) (hsh : Str)
    (hi : i < m.logged_in_users.length) :
    (Processor.queryUsers
        (Processor.handle_request m (.member i) (.declare d)).1 hsh).count
        ((m.logged_in_users.get ⟨i, hi⟩).to_tuple) =
      (Processor.queryUsers m hsh).count
          ((m.logged_in_users.get ⟨i, hi⟩).to_tuple) +
        d.files.countP (fun f => decide (f.hash = hsh)) :=
  declare_query_count m i d hsh hi

/-- Witness for C5 amended at the sample state. -/
theorem C5_witness :
    (Processor.queryUsers
        (Processor.handle_request sampleManager (.member 0)
          (.declare sampleDir)).1 "h1".data).count
        ((sampleManager.logged_in_users.get ⟨0, by decide⟩).to_tuple) =
      (Processor.queryUsers sampleManager "h1".data).count
          ((sampleManager.logged_in_users.get ⟨0, by decide⟩).to_tuple) +
        sampleDir.files.countP (fun f => decide (f.hash = "h1".data)) :=
  C5_amended sampleManager 0 sampleDir "h1".data (by decide)
